import Mathlib

/-!
Verification development for the `undercurrents` particle visualizer
(C sources: `src/particle.c`, `src/particle.h`, `src/main.c`).

The per-frame simulation core is shallowly embedded here:

* C `float` quantities (particle position, height, x, y, the rainbow
  color index, ...) are modelled as exact rationals `ℚ`.  The float
  library functions `cos`, `sin`, `sqrtf` and the constant `M_PI` are
  not pinned to concrete values by any claim; they are abstracted as a
  `TrigModel` parameter, so every theorem holds for any float-like
  realization of them.
* C `int` / `unsigned int` quantities are `ℤ` / `ℕ`.  Configuration
  variables are `ℕ` (the CLI parser rejects negative values), except
  `particleLineRingDisable` whose default is `-1`.
* A float division whose divisor is zero does not produce a rational
  number (the C program produces `inf`/`NaN`); the particle advance
  is therefore additionally embedded as an `Option`-valued function
  that returns `none` exactly when the divisor of its height division
  is zero.
* `rand()` outcomes are modelled as an oracle stream of draw records.
-/

namespace Undercurrents

/-- `#define MAX_COLORS (256 * 6)` from `main.c`. -/
def MAX_COLORS : ℕ := 256 * 6

/-- Abstract model of the float math library used by the C code:
`cos`, `sin` (for `particleCalculateCoordinates`), `sqrt` (for the
line-distance check) and the constant `M_PI`. -/
structure TrigModel where
  cosq : ℚ → ℚ
  sinq : ℚ → ℚ
  sqrtq : ℚ → ℚ
  piq : ℚ

/-- The `Particle` struct from `particle.h`: position and height are
C floats, radius/lineDistance/color are unsigned ints, speed and
bornTimer are ints, x and y are the derived coordinates (floats in
the SDL2 version of the struct). -/
structure Particle where
  position : ℚ
  height : ℚ
  radius : ℕ
  lineDistance : ℕ
  color : ℕ
  speed : ℤ
  bornTimer : ℤ
  x : ℚ
  y : ℚ
deriving DecidableEq

/-- First loop of `particleCalculateCoordinates`:
`while (p->position >= 360.0) { p->position -= 360.0; }`. -/
def positionWrapDown (x : ℚ) : ℚ :=
  if h : (360 : ℚ) ≤ x then positionWrapDown (x - 360) else x
termination_by (⌈x⌉).toNat
decreasing_by
  have hc : ⌈x - (360 : ℚ)⌉ = ⌈x⌉ - 360 := by
    rw [show (360 : ℚ) = ((360 : ℤ) : ℚ) by norm_num, Int.ceil_sub_int]
  have h2 : (360 : ℤ) ≤ ⌈x⌉ := by
    have := Int.le_ceil x
    exact_mod_cast (le_trans h this)
  omega

/-- Second loop of `particleCalculateCoordinates`:
`while (p->position < 0) { p->position += 360.0; }`. -/
def positionWrapUp (x : ℚ) : ℚ :=
  if h : x < 0 then positionWrapUp (x + 360) else x
termination_by (1 - ⌊x⌋).toNat
decreasing_by
  have hc : ⌊x + (360 : ℚ)⌋ = ⌊x⌋ + 360 := by
    rw [show (360 : ℚ) = ((360 : ℤ) : ℚ) by norm_num, Int.floor_add_int]
  have h2 : ⌊x⌋ < 0 := by
    have := Int.floor_le x
    have hx : (⌊x⌋ : ℚ) < 0 := lt_of_le_of_lt this h
    exact_mod_cast hx
  omega

/-- `particleCalculateCoordinates` from `particle.c`: normalize the
angular position into `[0, 360)` by the two wrap loops, shift by 270
degrees (from 3 o'clock to 12 o'clock), convert to radians via
`M_PI / 180`, and derive `x = height * cos(radians)`,
`y = height * sin(radians)`. -/
def particleCalculateCoordinates (t : TrigModel) (p : Particle) : Particle :=
  let pos := positionWrapUp (positionWrapDown p.position)
  let degrees := pos + 270
  let radians := degrees * t.piq / 180
  { p with
    position := pos
    x := p.height * t.cosq radians
    y := p.height * t.sinq radians }

theorem positionWrapDown_lt (x : ℚ) : positionWrapDown x < 360 := by
  rw [positionWrapDown]
  split
  · exact positionWrapDown_lt (x - 360)
  · linarith [not_le.mp (by assumption : ¬ (360 : ℚ) ≤ x)]
termination_by (⌈x⌉).toNat
decreasing_by
  have hc : ⌈x - (360 : ℚ)⌉ = ⌈x⌉ - 360 := by
    rw [show (360 : ℚ) = ((360 : ℤ) : ℚ) by norm_num, Int.ceil_sub_int]
  have h3 : (360 : ℚ) ≤ x := by assumption
  have h2 : (360 : ℤ) ≤ ⌈x⌉ := by exact_mod_cast le_trans h3 (Int.le_ceil x)
  omega

theorem positionWrapDown_eq_self {x : ℚ} (h : x < 360) :
    positionWrapDown x = x := by
  rw [positionWrapDown]
  simp [not_le.mpr h]

theorem positionWrapUp_nonneg (x : ℚ) : 0 ≤ positionWrapUp x := by
  rw [positionWrapUp]
  split
  · exact positionWrapUp_nonneg (x + 360)
  · exact not_lt.mp (by assumption)
termination_by (1 - ⌊x⌋).toNat
decreasing_by
  have hc : ⌊x + (360 : ℚ)⌋ = ⌊x⌋ + 360 := by
    rw [show (360 : ℚ) = ((360 : ℤ) : ℚ) by norm_num, Int.floor_add_int]
  have h2 : ⌊x⌋ < 0 := by
    have := Int.floor_le x
    have hx : (⌊x⌋ : ℚ) < 0 := lt_of_le_of_lt this (by assumption)
    exact_mod_cast hx
  omega

theorem positionWrapUp_lt {x : ℚ} (h : x < 360) : positionWrapUp x < 360 := by
  rw [positionWrapUp]
  split
  · exact positionWrapUp_lt (by linarith)
  · exact h
termination_by (1 - ⌊x⌋).toNat
decreasing_by
  have hc : ⌊x + (360 : ℚ)⌋ = ⌊x⌋ + 360 := by
    rw [show (360 : ℚ) = ((360 : ℤ) : ℚ) by norm_num, Int.floor_add_int]
  have h2 : ⌊x⌋ < 0 := by
    have := Int.floor_le x
    have hx : (⌊x⌋ : ℚ) < 0 := lt_of_le_of_lt this (by assumption)
    exact_mod_cast hx
  omega

theorem positionWrapUp_eq_self {x : ℚ} (h : 0 ≤ x) : positionWrapUp x = x := by
  rw [positionWrapUp]
  simp [not_lt.mpr h]

theorem normalizedPosition_mem (x : ℚ) :
    0 ≤ positionWrapUp (positionWrapDown x) ∧
      positionWrapUp (positionWrapDown x) < 360 :=
  ⟨positionWrapUp_nonneg _, positionWrapUp_lt (positionWrapDown_lt x)⟩

/-- C7: after `particleCalculateCoordinates` returns, the particle's
angular position lies in `[0, 360)`, and `x`/`y` are derived from the
height and the normalized position under the convention rotated so 0
degrees points up: `x = height * cos(θ)`, `y = height * sin(θ)` with
`θ = (position + 270) * π / 180`.  (In this exact-rational embedding
every angular position is finite, so the claim's finiteness proviso
is vacuous.) -/
theorem C7_calculateCoordinates_range (t : TrigModel) (p : Particle) :
    0 ≤ (particleCalculateCoordinates t p).position ∧
      (particleCalculateCoordinates t p).position < 360 ∧
      (particleCalculateCoordinates t p).x =
        (particleCalculateCoordinates t p).height *
          t.cosq (((particleCalculateCoordinates t p).position + 270) * t.piq / 180) ∧
      (particleCalculateCoordinates t p).y =
        (particleCalculateCoordinates t p).height *
          t.sinq (((particleCalculateCoordinates t p).position + 270) * t.piq / 180) := by
  refine ⟨positionWrapUp_nonneg _, positionWrapUp_lt (positionWrapDown_lt _), ?_, ?_⟩ <;>
    simp [particleCalculateCoordinates]

/-- C8: `particleCalculateCoordinates` is idempotent — calling it twice
with no intervening change to height or position produces the same
x, y and position as calling it once. -/
theorem C8_calculateCoordinates_idempotent (t : TrigModel) (p : Particle) :
    particleCalculateCoordinates t (particleCalculateCoordinates t p) =
      particleCalculateCoordinates t p := by
  have hmem := normalizedPosition_mem p.position
  simp [particleCalculateCoordinates,
    positionWrapDown_eq_self hmem.2, positionWrapUp_eq_self hmem.1]

/-- The configuration surface of `main.c`: every `#define` exposed as a
global variable settable by CLI long options.  The CLI parser rejects
negative values, so the numeric parameters are `ℕ`; the only exception
is `particleLineRingDisable`, whose default is `-1`. -/
structure Config where
  windowWidth : ℕ
  windowHeight : ℕ
  particleSpeedMaximum : ℕ
  particleSpeedFactor : ℕ
  particleRadiusMinimum : ℕ
  particleRadiusMaximum : ℕ
  particleHeightMinimum : ℕ
  particleHeightMaximum : ℕ
  particleLineDistanceMinimum : ℕ
  particleLineDistanceMaximum : ℕ
  particleLineDistanceFactor : ℕ
  particleLineRingDisable : ℤ
  particleExpandRate : ℕ
  particleBornTimerMaximum : ℕ
  particleColorSpeed : ℕ
  ringsMaximum : ℕ
  alphaBackground : ℕ
  alphaElements : ℕ
  timerPrintStatusLine : ℕ
  timerAddNewRing : ℕ
deriving DecidableEq

/-- The `#define` values at the top of `main.c`. -/
def defaultConfig : Config where
  windowWidth := 1200
  windowHeight := 1200
  particleSpeedMaximum := 30
  particleSpeedFactor := 100
  particleRadiusMinimum := 1
  particleRadiusMaximum := 5
  particleHeightMinimum := 0
  particleHeightMaximum := 5
  particleLineDistanceMinimum := 0
  particleLineDistanceMaximum := 200
  particleLineDistanceFactor := 100
  particleLineRingDisable := -1
  particleExpandRate := 20
  particleBornTimerMaximum := 1000
  particleColorSpeed := 50
  ringsMaximum := 35
  alphaBackground := 7
  alphaElements := 25
  timerPrintStatusLine := 2000
  timerAddNewRing := 1000

/-- The configurations under which `randomizeParticle` is well defined:
every `rand() % n` it performs needs a positive modulus (`% 0` is
undefined behaviour in C).  All hold for `defaultConfig`. -/
def ValidConfig (cfg : Config) : Prop :=
  0 < cfg.particleSpeedMaximum ∧
    cfg.particleRadiusMinimum < cfg.particleRadiusMaximum ∧
    cfg.particleHeightMinimum < cfg.particleHeightMaximum ∧
    cfg.particleLineDistanceMinimum < cfg.particleLineDistanceMaximum ∧
    0 < cfg.particleBornTimerMaximum

instance (cfg : Config) : Decidable (ValidConfig cfg) := by
  unfold ValidConfig; infer_instance

/-- One record of successive `rand()` results, in the order
`randomizeParticle` consumes them. -/
structure RandDraws where
  rSpeed : ℕ
  rRadius : ℕ
  rHeight : ℕ
  rLineDistance : ℕ
  rColor : ℕ
  rBorn : ℕ
  rPos : ℕ
  rSign : ℕ

/-- `particleInit` from `particle.c`: assign all fields, then derive the
coordinates with `particleCalculateCoordinates` (which overwrites the
`x`/`y` placeholders). -/
def particleInit (t : TrigModel) (bornTimer : ℤ) (radius : ℕ) (height : ℕ)
    (speed : ℤ) (lineDistance : ℕ) (position : ℚ) (color : ℕ) : Particle :=
  particleCalculateCoordinates t
    { bornTimer := bornTimer
      height := (height : ℚ)
      radius := radius
      speed := speed
      lineDistance := lineDistance
      position := position
      color := color
      x := 0
      y := 0 }

/-- `randomizeParticle` from `main.c`: draw each field from its
configured range via `rand()` remainders, flip the speed's sign when
`rand() % 2` is non-zero, then `particleInit`. -/
def randomizeParticle (cfg : Config) (t : TrigModel) (d : RandDraws) : Particle :=
  let speed0 : ℤ := (d.rSpeed % cfg.particleSpeedMaximum : ℕ)
  let radius : ℕ := cfg.particleRadiusMinimum +
    d.rRadius % (cfg.particleRadiusMaximum - cfg.particleRadiusMinimum)
  let height : ℕ := cfg.particleHeightMinimum +
    d.rHeight % (cfg.particleHeightMaximum - cfg.particleHeightMinimum)
  let lineDistance : ℕ := cfg.particleLineDistanceMinimum +
    d.rLineDistance % (cfg.particleLineDistanceMaximum - cfg.particleLineDistanceMinimum)
  let color : ℕ := d.rColor % MAX_COLORS
  let bornTimer : ℤ := (d.rBorn % cfg.particleBornTimerMaximum : ℕ)
  let position : ℚ := (d.rPos % 360 : ℕ)
  let speed : ℤ := if d.rSign % 2 = 1 then -speed0 else speed0
  particleInit t bornTimer radius height speed lineDistance position color

/-- The height increment of the per-frame update in `main.c`:
`p->height += (float)delta * (float)particleExpandRate / 1000.0;`.
This is also the divisor of the subsequent angular-position advance. -/
def advanceHeight (cfg : Config) (delta : ℕ) (p : Particle) : ℚ :=
  p.height + (delta : ℚ) * (cfg.particleExpandRate : ℚ) / 1000

/-- The per-frame particle update from the `main.c` animation loop:
grow the height, advance the angular position by
`delta * (speed / height / 5.0 * speedRate)` (dividing by the freshly
incremented height, with no guard), recompute coordinates, then clamp
the birth countdown at zero.  The division is modelled with total
rational division; `advanceParticleChecked` tracks the zero-divisor
case. -/
def advanceParticle (cfg : Config) (t : TrigModel) (delta : ℕ) (p : Particle) : Particle :=
  let speedRate : ℚ := (cfg.particleSpeedFactor : ℚ) / 100
  let h := advanceHeight cfg delta p
  let pos := p.position + (delta : ℚ) * ((p.speed : ℚ) / h / 5 * speedRate)
  let p1 := particleCalculateCoordinates t { p with height := h, position := pos }
  if p.bornTimer ≠ 0 then
    let bt := p.bornTimer - (delta : ℤ)
    { p1 with bornTimer := if bt < 0 then 0 else bt }
  else p1

/-- The per-frame particle update with its division fault made
explicit: C float division by zero does not produce a (rational)
number, so the update is `none` exactly when the divisor — the freshly
incremented height — is zero. -/
def advanceParticleChecked (cfg : Config) (t : TrigModel) (delta : ℕ) (p : Particle) :
    Option Particle :=
  if advanceHeight cfg delta p = 0 then none
  else some (advanceParticle cfg t delta p)

/-- The C1 claim as stated: under any valid configuration, no particle
placed in a ring (here: any output of `randomizeParticle`) can hit a
division by zero in the per-frame update, on any frame. -/
def C1Statement : Prop :=
  ∀ (cfg : Config) (t : TrigModel) (d : RandDraws) (delta : ℕ),
    ValidConfig cfg →
      advanceParticleChecked cfg t delta (randomizeParticle cfg t d) ≠ none

/-- A concrete float-math model for closed-instance evaluation (the
theorems quantify over every model, so the choice is irrelevant). -/
def trivialTrig : TrigModel where
  cosq := fun _ => 0
  sinq := fun _ => 0
  sqrtq := fun _ => 0
  piq := 0

/-- `undercurrents --particleExpandRate 0`: a configuration the CLI
parser accepts (it only rejects negative values). -/
def zeroExpandConfig : Config :=
  { defaultConfig with particleExpandRate := 0 }

/-- All-zero `rand()` outcomes: they randomize a particle with height
`particleHeightMinimum` (0 by default). -/
def zeroDraws : RandDraws where
  rSpeed := 0
  rRadius := 0
  rHeight := 0
  rLineDistance := 0
  rColor := 0
  rBorn := 0
  rPos := 0
  rSign := 0

theorem randomizeParticle_zero_height :
    (randomizeParticle zeroExpandConfig trivialTrig zeroDraws).height = 0 := by
  simp [randomizeParticle, particleInit, particleCalculateCoordinates,
    zeroExpandConfig, defaultConfig, zeroDraws]

/-- C1 fails on the code: the angular-position advance divides by the
(freshly incremented) height with no `height > 0` guard, and with the
CLI-reachable configuration `--particleExpandRate 0` a randomized
particle of height 0 divides by zero on its first frame. -/
theorem C1_counterexample : ¬ C1Statement := by
  intro hclaim
  have hvalid : ValidConfig zeroExpandConfig := by decide
  apply hclaim zeroExpandConfig trivialTrig zeroDraws 1 hvalid
  have h0 : advanceHeight zeroExpandConfig 1
      (randomizeParticle zeroExpandConfig trivialTrig zeroDraws) = 0 := by
    rw [advanceHeight, randomizeParticle_zero_height]
    norm_num [zeroExpandConfig]
  rw [advanceParticleChecked, if_pos h0]

/-- C1 amended: the advance divides by the post-increment height
unconditionally (no `height > 0` guard exists in the code); the
division by zero is unreachable whenever the expand rate and the frame
delta are at least 1 — as holds under the default configuration — and
the particle height is non-negative, because the divisor is then
strictly positive. -/
theorem C1_no_div_by_zero_when_expanding (cfg : Config) (t : TrigModel)
    (p : Particle) (delta : ℕ)
    (h1 : 1 ≤ cfg.particleExpandRate) (h2 : 1 ≤ delta) (h3 : 0 ≤ p.height) :
    advanceParticleChecked cfg t delta p = some (advanceParticle cfg t delta p) := by
  have hd : (1 : ℚ) ≤ (delta : ℚ) := by exact_mod_cast h2
  have he : (1 : ℚ) ≤ (cfg.particleExpandRate : ℚ) := by exact_mod_cast h1
  have hpos : 0 < advanceHeight cfg delta p := by
    rw [advanceHeight]
    nlinarith
  rw [advanceParticleChecked, if_neg (ne_of_gt hpos)]

/-- Closed instance of the amended C1 theorem at a concrete particle
and the default configuration. -/
theorem C1_no_div_by_zero_when_expanding_witness :
    advanceParticleChecked defaultConfig trivialTrig 1
        { position := 0, height := 0, radius := 1, lineDistance := 0,
          color := 0, speed := 5, bornTimer := 0, x := 0, y := 0 } =
      some (advanceParticle defaultConfig trivialTrig 1
        { position := 0, height := 0, radius := 1, lineDistance := 0,
          color := 0, speed := 5, bornTimer := 0, x := 0, y := 0 }) :=
  C1_no_div_by_zero_when_expanding defaultConfig trivialTrig _ 1
    (by decide) (by decide) (by norm_num)

/-- The global `gState` struct of `main.c` (ring list, counters, mode
flags) together with the `main`-local animation variables that persist
across frames (`rainbowIdx`, `addNewRingCounter`,
`printStatusLineCounter`).  A ring is its list of particle nodes;
`colorMode` is the enum as a number (0 = solid, 1 = ringed,
2 = circular, 3 = individual). -/
structure GameState where
  rings : List (List Particle)
  ringCount : ℕ
  particleCount : ℕ
  recycledParticles : ℕ
  freeParticleNodes : List Particle
  fadingMode : Bool
  blankMode : Bool
  linesEnabled : Bool
  paused : Bool
  colorMode : ℕ
  rainbowIdx : ℚ
  addNewRingCounter : ℤ
  printStatusLineCounter : ℤ
deriving DecidableEq

/-- The initializer of `gState` plus the initial values of the
`main`-local animation variables. -/
def initialState : GameState where
  rings := []
  ringCount := 0
  particleCount := 0
  recycledParticles := 0
  freeParticleNodes := []
  fadingMode := true
  blankMode := false
  linesEnabled := true
  paused := false
  colorMode := 0
  rainbowIdx := 0
  addNewRingCounter := 0
  printStatusLineCounter := 0

/-- `addRing` from `main.c`: prepend a fresh empty ring at the list
head and increment the active ring count. -/
def addRing (s : GameState) : GameState :=
  { s with rings := [] :: s.rings, ringCount := s.ringCount + 1 }

/-- The traversal of `recycleLastRing`: fast-forward to the
second-to-last node and detach the last one.  Returns the truncated
list and the detached tail ring; `none` mirrors the two early-return
paths (`ringPtr == NULL` for the empty list, `last == NULL` for a
singleton list). -/
def splitLastRing : List (List Particle) → List (List Particle) × Option (List Particle)
  | [] => ([], none)
  | [r] => ([r], none)
  | [r, last] => ([r], some last)
  | r :: rest => ((splitLastRing rest).1.cons r, (splitLastRing rest).2)

/-- The particle-moving loop of `recycleLastRing`: push each node of
the detached ring onto the free list, incrementing
`recycledParticles` once per node. -/
def moveToFree : List Particle → List Particle → ℕ → List Particle × ℕ
  | [], free, rc => (free, rc)
  | cur :: rest, free, rc => moveToFree rest (cur :: free) (rc + 1)

/-- `recycleLastRing` from `main.c`: detach the tail ring (no-op when
the list is empty — "nothing to recycle" — or a singleton, the
`last == NULL` check) and move its particle nodes onto the free
list. -/
def recycleLastRing (s : GameState) : GameState :=
  match splitLastRing s.rings with
  | (_, none) => s
  | (rings', some last) =>
    let fr := moveToFree last s.freeParticleNodes s.recycledParticles
    { s with rings := rings', freeParticleNodes := fr.1, recycledParticles := fr.2 }

/-- One pruning step as performed by the callers of `recycleLastRing`
(the `c` key handler and the ring-spawn action): the call followed by
the caller's `ringCount--`.  Both callers guard on a positive count,
so the unsigned decrement is ordinary subtraction there. -/
def pruneOldest (s : GameState) : GameState :=
  let s1 := recycleLastRing s
  { s1 with ringCount := s1.ringCount - 1 }

theorem moveToFree_eq (ps : List Particle) : ∀ (free : List Particle) (rc : ℕ),
    moveToFree ps free rc = (ps.reverse ++ free, rc + ps.length) := by
  induction ps with
  | nil => intro free rc; simp [moveToFree]
  | cons cur rest ih =>
    intro free rc
    simp [moveToFree, ih (cur :: free) (rc + 1)]
    omega

theorem splitLastRing_eq : ∀ (l : List (List Particle)), 2 ≤ l.length →
    splitLastRing l = (l.dropLast, l.getLast?)
  | [r, last], _ => by simp [splitLastRing]
  | a :: b :: c :: rest, _ => by
    have ih := splitLastRing_eq (b :: c :: rest) (by simp)
    simp [splitLastRing, ih, List.dropLast_cons₂, List.getLast?_cons_cons]

theorem recycleLastRing_ringCount (s : GameState) :
    (recycleLastRing s).ringCount = s.ringCount := by
  unfold recycleLastRing
  split
  · rfl
  · rfl

theorem recycleLastRing_nil (s : GameState) (h : s.rings = []) :
    recycleLastRing s = s := by
  unfold recycleLastRing
  rw [show splitLastRing s.rings = ([], none) by rw [h]; rfl]

theorem recycleLastRing_singleton (s : GameState) (r : List Particle)
    (h : s.rings = [r]) : recycleLastRing s = s := by
  unfold recycleLastRing
  rw [show splitLastRing s.rings = ([r], none) by rw [h]; rfl]

theorem recycleLastRing_of_two_le (s : GameState) (last : List Particle)
    (h : 2 ≤ s.rings.length) (hl : s.rings.getLast? = some last) :
    recycleLastRing s =
      { s with
        rings := s.rings.dropLast
        freeParticleNodes := last.reverse ++ s.freeParticleNodes
        recycledParticles := s.recycledParticles + last.length } := by
  unfold recycleLastRing
  rw [splitLastRing_eq s.rings h, hl]
  simp [moveToFree_eq]

/-- `makeOrReclaimRandomizedParticleNode` from `main.c`: pop a node
from the free list (decrementing `recycledParticles`) or allocate a
new one (incrementing `particleCount`); either way the node's particle
is fully overwritten by `randomizeParticle`, so its value is the fresh
randomization of the supplied draws. -/
def makeOrReclaim (cfg : Config) (t : TrigModel) (d : RandDraws) (s : GameState) :
    GameState × Particle :=
  match s.freeParticleNodes with
  | [] => ({ s with particleCount := s.particleCount + 1 }, randomizeParticle cfg t d)
  | _ :: rest =>
    ({ s with
        freeParticleNodes := rest
        recycledParticles := s.recycledParticles - 1 },
      randomizeParticle cfg t d)

/-- The inner `for (j = 0; j < num; j++)` population loop of the
ring-spawn action: prepend `num` freshly randomized particles to the
ring, offsetting each new particle's height by the current head's
height when the ring is non-empty.  `k` indexes the oracle stream of
`rand()` draws; it is threaded through and returned. -/
def populateRing (cfg : Config) (t : TrigModel) (rnd : ℕ → RandDraws) :
    ℕ → ℕ → List Particle → GameState → List Particle × GameState × ℕ
  | k, 0, ring, s => (ring, s, k)
  | k, num + 1, ring, s =>
    let ms := makeOrReclaim cfg t (rnd k) s
    let newP :=
      match ring with
      | [] => ms.2
      | head :: _ => { ms.2 with height := ms.2.height + head.height }
    populateRing cfg t rnd (k + 1) num (newP :: ring) ms.1

/-- The outer ring loop of the ring-spawn action: ring `i` (0 = the
newest, head ring) gains `(i / 4) + 4` particles. -/
def populateRings (cfg : Config) (t : TrigModel) (rnd : ℕ → RandDraws) :
    ℕ → ℕ → List (List Particle) → GameState →
      List (List Particle) × GameState × ℕ
  | k, _, [], s => ([], s, k)
  | k, i, ring :: rest, s =>
    let num := i / 4 + 4
    let pr := populateRing cfg t rnd k num ring s
    let rr := populateRings cfg t rnd pr.2.2 (i + 1) rest pr.2.1
    (pr.1 :: rr.1, rr.2.1, rr.2.2)

theorem pruneOldest_ringCount (s : GameState) :
    (pruneOldest s).ringCount = s.ringCount - 1 := by
  simp [pruneOldest, recycleLastRing_ringCount]

/-- The `while (gState.ringCount > ringsMaximum)` recycling loop of
the ring-spawn action. -/
def pruneExcess (cfg : Config) (s : GameState) : GameState :=
  if _h : cfg.ringsMaximum < s.ringCount then pruneExcess cfg (pruneOldest s) else s
termination_by s.ringCount
decreasing_by
  rw [pruneOldest_ringCount]
  omega

theorem pruneExcess_eq_self (cfg : Config) (s : GameState)
    (h : ¬ cfg.ringsMaximum < s.ringCount) : pruneExcess cfg s = s := by
  rw [pruneExcess]
  simp [h]

/-- The complete ring-spawn timer action from the `main.c` animation
loop: `addRing()`, then prune while over the maximum, then populate
every existing ring by age index. -/
def spawnAction (cfg : Config) (t : TrigModel) (rnd : ℕ → RandDraws)
    (s : GameState) : GameState :=
  let s1 := addRing s
  let s2 := pruneExcess cfg s1
  let pr := populateRings cfg t rnd 0 0 s2.rings s2
  { pr.2.1 with rings := pr.1 }

/-- State transitions of the simulation core that mutate the ring
list, the free pool or the particles: the ring-spawn timer action, one
guarded prune call (as issued by the `c`-key loop and the spawn
action's recycling loop, which always run with a positive ring count),
and the per-frame physics advance over all particles. -/
inductive Step (cfg : Config) (t : TrigModel) : GameState → GameState → Prop
  | spawn (rnd : ℕ → RandDraws) (s : GameState) :
      Step cfg t s (spawnAction cfg t rnd s)
  | pruneCall (s : GameState) (h : 1 ≤ s.ringCount) :
      Step cfg t s (pruneOldest s)
  | advanceAll (delta : ℕ) (s : GameState) :
      Step cfg t s
        { s with rings := s.rings.map (List.map (advanceParticle cfg t delta)) }

/-- States reachable from program start by the simulation-core
transitions. -/
def Reachable (cfg : Config) (t : TrigModel) (s : GameState) : Prop :=
  Relation.ReflTransGen (Step cfg t) initialState s

/-- A sample particle for closed-instance witnesses. -/
def particleW : Particle :=
  { position := 10, height := 2, radius := 1, lineDistance := 0,
    color := 0, speed := 5, bornTimer := 0, x := 0, y := 0 }

/-- A state whose ring list holds exactly one ring (with one
particle). -/
def oneRingState : GameState :=
  { initialState with rings := [[particleW]], ringCount := 1 }

/-- A state whose ring list holds two rings; the tail (oldest) ring
carries one particle. -/
def twoRingState : GameState :=
  { initialState with rings := [[], [particleW]], ringCount := 2 }

/-- C3: `addRing` always inserts the new ring as the unique head
(newest) entry of the ring list; a `recycleLastRing` call on a list of
at least two rings removes exactly the tail (oldest) ring and
preserves the rest in order — so repeated prune calls remove rings in
strict insertion order, oldest first; and on an empty ring list
`recycleLastRing` returns with no change (a no-op, not an error). -/
theorem C3_ring_order :
    (∀ s : GameState,
      (addRing s).rings = [] :: s.rings ∧ (addRing s).ringCount = s.ringCount + 1) ∧
    (∀ s : GameState, 2 ≤ s.rings.length →
      (recycleLastRing s).rings = s.rings.dropLast) ∧
    (∀ s : GameState, s.rings = [] → recycleLastRing s = s) := by
  refine ⟨fun s => ⟨rfl, rfl⟩, fun s h => ?_, fun s h => recycleLastRing_nil s h⟩
  have hne : s.rings ≠ [] := by
    intro hn
    rw [hn] at h
    simp at h
  rw [recycleLastRing_of_two_le s (s.rings.getLast hne) h
    (List.getLast?_eq_getLast s.rings hne)]

/-- Closed instance of C3 at concrete states: pruning a two-ring state
drops its tail ring, and pruning the empty initial state is a no-op. -/
theorem C3_ring_order_witness :
    (2 ≤ twoRingState.rings.length ∧
      (recycleLastRing twoRingState).rings = twoRingState.rings.dropLast) ∧
    (initialState.rings = [] ∧ recycleLastRing initialState = initialState) :=
  ⟨⟨by decide, C3_ring_order.2.1 twoRingState (by decide)⟩,
    ⟨rfl, C3_ring_order.2.2 initialState rfl⟩⟩

/-- C10: on a singleton ring list `recycleLastRing` returns without
detaching the ring and without moving any particle nodes (the whole
state is unchanged); pruning never empties a non-empty ring list; and
since callers decrement the ring counter even after such a no-op call,
the counter then understates the number of rings actually in the
list. -/
theorem C10_singleton_prune :
    (∀ (s : GameState) (r : List Particle), s.rings = [r] →
      recycleLastRing s = s) ∧
    (∀ s : GameState, s.rings ≠ [] → (pruneOldest s).rings ≠ []) ∧
    (∀ (s : GameState) (r : List Particle), s.rings = [r] → s.ringCount = 1 →
      (pruneOldest s).ringCount < (pruneOldest s).rings.length) := by
  refine ⟨fun s r h => recycleLastRing_singleton s r h, fun s h => ?_, ?_⟩
  · match hm : s.rings with
    | [] => exact absurd hm h
    | [r] =>
      have := recycleLastRing_singleton s r hm
      simp [pruneOldest, this, hm]
    | a :: b :: rest =>
      have h2 : 2 ≤ s.rings.length := by rw [hm]; simp
      have hne : s.rings ≠ [] := by rw [hm]; simp
      have := recycleLastRing_of_two_le s (s.rings.getLast hne) h2
        (List.getLast?_eq_getLast s.rings hne)
      simp [pruneOldest, this, hm]
  · intro s r h h1
    have hr := recycleLastRing_singleton s r h
    simp [pruneOldest, hr, h, h1]

/-- Closed instance of C10 at a concrete one-ring state: the prune
call leaves the ring in place while the counter drops to zero. -/
theorem C10_singleton_prune_witness :
    oneRingState.rings = [[particleW]] ∧
      recycleLastRing oneRingState = oneRingState ∧
      oneRingState.rings ≠ [] ∧ (pruneOldest oneRingState).rings ≠ [] ∧
      (pruneOldest oneRingState).ringCount < (pruneOldest oneRingState).rings.length :=
  ⟨rfl, C10_singleton_prune.1 oneRingState [particleW] rfl, by decide,
    C10_singleton_prune.2.1 oneRingState (by decide),
    C10_singleton_prune.2.2 oneRingState [particleW] rfl rfl⟩

theorem makeOrReclaim_ringCount (cfg : Config) (t : TrigModel) (d : RandDraws)
    (s : GameState) : (makeOrReclaim cfg t d s).1.ringCount = s.ringCount := by
  unfold makeOrReclaim
  split <;> rfl

theorem populateRing_ringCount (cfg : Config) (t : TrigModel) (rnd : ℕ → RandDraws) :
    ∀ (num k : ℕ) (ring : List Particle) (s : GameState),
      (populateRing cfg t rnd k num ring s).2.1.ringCount = s.ringCount := by
  intro num
  induction num with
  | zero => intro k ring s; rfl
  | succ n ih =>
    intro k ring s
    simp only [populateRing]
    rw [ih]
    exact makeOrReclaim_ringCount cfg t (rnd k) s

theorem populateRing_length (cfg : Config) (t : TrigModel) (rnd : ℕ → RandDraws) :
    ∀ (num k : ℕ) (ring : List Particle) (s : GameState),
      (populateRing cfg t rnd k num ring s).1.length = ring.length + num := by
  intro num
  induction num with
  | zero => intro k ring s; rfl
  | succ n ih =>
    intro k ring s
    simp only [populateRing]
    rw [ih]
    simp
    omega

theorem populateRings_ringCount (cfg : Config) (t : TrigModel) (rnd : ℕ → RandDraws) :
    ∀ (rs : List (List Particle)) (k i : ℕ) (s : GameState),
      (populateRings cfg t rnd k i rs s).2.1.ringCount = s.ringCount := by
  intro rs
  induction rs with
  | nil => intro k i s; rfl
  | cons ring rest ih =>
    intro k i s
    rw [populateRings, ih]
    exact populateRing_ringCount cfg t rnd _ _ _ _

theorem populateRings_length (cfg : Config) (t : TrigModel) (rnd : ℕ → RandDraws) :
    ∀ (rs : List (List Particle)) (k i : ℕ) (s : GameState),
      (populateRings cfg t rnd k i rs s).1.length = rs.length := by
  intro rs
  induction rs with
  | nil => intro k i s; rfl
  | cons ring rest ih =>
    intro k i s
    rw [populateRings]
    simp [ih]

/-- Each ring at age index `j` of the population loop started at age
index `i` gains exactly `(i + j) / 4 + 4` particles. -/
theorem populateRings_ring_lengths (cfg : Config) (t : TrigModel) (rnd : ℕ → RandDraws) :
    ∀ (rs : List (List Particle)) (k i : ℕ) (s : GameState) (j : ℕ),
      ((populateRings cfg t rnd k i rs s).1[j]?.map List.length) =
        rs[j]?.map (fun r => r.length + ((i + j) / 4 + 4)) := by
  intro rs
  induction rs with
  | nil => intro k i s j; rfl
  | cons ring rest ih =>
    intro k i s j
    rw [populateRings]
    match j with
    | 0 => simp [populateRing_length]
    | j + 1 =>
      simp only [List.getElem?_cons_succ]
      rw [ih]
      have : i + 1 + j = i + (j + 1) := by omega
      rw [this]

theorem makeOrReclaim_free_nil (cfg : Config) (t : TrigModel) (d : RandDraws)
    (s : GameState) (h : s.freeParticleNodes = []) :
    makeOrReclaim cfg t d s =
      ({ s with particleCount := s.particleCount + 1 }, randomizeParticle cfg t d) := by
  unfold makeOrReclaim
  rw [show s.freeParticleNodes = [] from h]

/-- When the free pool is empty, the inner population loop only bumps
`particleCount` (once per new particle) and leaves the pool empty. -/
theorem populateRing_state_free_nil (cfg : Config) (t : TrigModel) (rnd : ℕ → RandDraws) :
    ∀ (num k : ℕ) (ring : List Particle) (s : GameState),
      s.freeParticleNodes = [] →
      (populateRing cfg t rnd k num ring s).2.1 =
        { s with particleCount := s.particleCount + num } := by
  intro num
  induction num with
  | zero => intro k ring s h; rfl
  | succ n ih =>
    intro k ring s h
    simp only [populateRing]
    rw [makeOrReclaim_free_nil cfg t (rnd k) s h]
    rw [ih (k + 1) _ { s with particleCount := s.particleCount + 1 } h]
    simp
    omega

/-- The particle-node count of the tail (oldest) ring, 0 when there is
no ring. -/
def tailRingLength (s : GameState) : ℕ :=
  (s.rings.getLast?.map List.length).getD 0

/-- The C2 claim as stated: at every reachable state at which a prune
call occurs (callers only issue one with a positive ring count), the
free pool grows by exactly the tail ring's particle-node count, the
pooled-node counter increases by the same amount, and the active ring
count decreases by exactly one. -/
def C2Statement : Prop :=
  ∀ (cfg : Config) (t : TrigModel) (s : GameState),
    Reachable cfg t s → 1 ≤ s.ringCount →
    (pruneOldest s).freeParticleNodes.length =
        s.freeParticleNodes.length + tailRingLength s ∧
      (pruneOldest s).recycledParticles = s.recycledParticles + tailRingLength s ∧
      (pruneOldest s).ringCount + 1 = s.ringCount

theorem spawnAction_init_ringCount (rnd : ℕ → RandDraws) :
    (spawnAction defaultConfig trivialTrig rnd initialState).ringCount = 1 := by
  unfold spawnAction
  dsimp only
  rw [pruneExcess_eq_self _ _ (by decide)]
  simp [populateRings_ringCount]
  rfl

theorem spawnAction_init_rings (rnd : ℕ → RandDraws) :
    ((spawnAction defaultConfig trivialTrig rnd initialState).rings.map
      List.length) = [4] := by
  unfold spawnAction
  dsimp only
  rw [pruneExcess_eq_self _ _ (by decide)]
  have hlen := populateRings_length defaultConfig trivialTrig rnd
    (addRing initialState).rings 0 0 (addRing initialState)
  have hget := populateRings_ring_lengths defaultConfig trivialTrig rnd
    (addRing initialState).rings 0 0 (addRing initialState) 0
  rw [show (addRing initialState).rings = [[]] from rfl] at hlen hget
  simp at hlen hget
  match hm : (populateRings defaultConfig trivialTrig rnd 0 0 [[]]
      (addRing initialState)).1 with
  | [] => rw [hm] at hlen; simp at hlen
  | r :: rest =>
    rw [hm] at hlen hget
    simp at hlen hget
    simp [hm, hget, hlen]

/-- C2 fails on the code: the state reached after the very first
ring-spawn interval has a single ring carrying four particles, and a
prune call there (as the `c` key issues) moves nothing to the free
pool — `recycleLastRing` declines to detach the only ring — while the
caller still decrements the ring count. -/
theorem C2_counterexample : ¬ C2Statement := by
  intro hclaim
  have hreach : Reachable defaultConfig trivialTrig
      (spawnAction defaultConfig trivialTrig (fun _ => zeroDraws) initialState) :=
    Relation.ReflTransGen.single (Step.spawn (fun _ => zeroDraws) initialState)
  have hcount := spawnAction_init_ringCount (fun _ => zeroDraws)
  have hrings := spawnAction_init_rings (fun _ => zeroDraws)
  obtain ⟨r0, hr0, hlen⟩ : ∃ r0,
      (spawnAction defaultConfig trivialTrig (fun _ => zeroDraws) initialState).rings
        = [r0] ∧ r0.length = 4 := by
    match hm : (spawnAction defaultConfig trivialTrig (fun _ => zeroDraws)
        initialState).rings with
    | [] => rw [hm] at hrings; simp at hrings
    | [r0] => rw [hm] at hrings; simp at hrings; exact ⟨r0, rfl, hrings⟩
    | a :: b :: rest => rw [hm] at hrings; simp at hrings
  have hfree := (hclaim defaultConfig trivialTrig _ hreach (by omega)).1
  have hnoop := recycleLastRing_singleton _ r0 hr0
  have htail : tailRingLength (spawnAction defaultConfig trivialTrig
      (fun _ => zeroDraws) initialState) = 4 := by
    rw [tailRingLength, hr0]
    simp [hlen]
  rw [htail] at hfree
  have : (pruneOldest (spawnAction defaultConfig trivialTrig (fun _ => zeroDraws)
      initialState)).freeParticleNodes =
      (spawnAction defaultConfig trivialTrig (fun _ => zeroDraws)
        initialState).freeParticleNodes := by
    rw [pruneOldest, hnoop]
  rw [this] at hfree
  omega

/-- C2 amended: whenever the ring list holds at least two rings, one
prune call (recycleLastRing plus the caller's decrement) moves exactly
the detached tail ring's particle nodes onto the free pool, increases
the pooled-node counter by exactly that amount, removes exactly the
tail ring, and decreases the active ring count by one.  (With exactly
one ring, `recycleLastRing` is a no-op and only the counter drops,
refer to C10.) -/
theorem C2_prune_moves_tail (s : GameState)
    (h : 2 ≤ s.rings.length) (hc : 1 ≤ s.ringCount) :
    (pruneOldest s).freeParticleNodes.length =
        s.freeParticleNodes.length + tailRingLength s ∧
      (pruneOldest s).recycledParticles = s.recycledParticles + tailRingLength s ∧
      (pruneOldest s).ringCount + 1 = s.ringCount ∧
      (pruneOldest s).rings = s.rings.dropLast := by
  have hne : s.rings ≠ [] := by
    intro hn
    rw [hn] at h
    simp at h
  have hr := recycleLastRing_of_two_le s (s.rings.getLast hne) h
    (List.getLast?_eq_getLast s.rings hne)
  have htail : tailRingLength s = (s.rings.getLast hne).length := by
    rw [tailRingLength, List.getLast?_eq_getLast s.rings hne]
    rfl
  refine ⟨?_, ?_, ?_, ?_⟩ <;> simp [pruneOldest, hr, htail] <;> omega

/-- Closed instance of the amended C2 theorem at a concrete two-ring
state: the tail ring's single particle lands on the free pool, and the
ring count drops from 2 to 1. -/
theorem C2_prune_moves_tail_witness :
    2 ≤ twoRingState.rings.length ∧ 1 ≤ twoRingState.ringCount ∧
      (pruneOldest twoRingState).freeParticleNodes.length =
        twoRingState.freeParticleNodes.length + tailRingLength twoRingState ∧
      (pruneOldest twoRingState).recycledParticles =
        twoRingState.recycledParticles + tailRingLength twoRingState ∧
      (pruneOldest twoRingState).ringCount + 1 = twoRingState.ringCount ∧
      (pruneOldest twoRingState).rings = twoRingState.rings.dropLast :=
  ⟨by decide, by decide, C2_prune_moves_tail twoRingState (by decide) (by decide)⟩

/-- The catch-up loop shared by both countdown timers in `main.c`:
`int i = 0; while (counter <= 0) { i++; counter += interval; }`.
Returns the re-armed counter and the count `i` of extra expired
multiples.  (With `interval = 0` the C loop would never terminate;
this total embedding returns immediately in that unreached case.) -/
def rearmLoop (interval : ℕ) (c : ℤ) : ℤ × ℕ :=
  if h0 : interval = 0 then (c, 0)
  else if h1 : c ≤ 0 then
    ((rearmLoop interval (c + interval)).1, (rearmLoop interval (c + interval)).2 + 1)
  else (c, 0)
termination_by (1 - c).toNat
decreasing_by omega

/-- One frame's worth of countdown-timer bookkeeping from `main.c`:
`counter -= delta; if (counter <= 0) { counter += interval; ACTION;
<catch-up loop reporting missed calls>; }`.  Returns the new counter
value, the reported count of missed extra firings, and whether the
timer expired this frame (`ACTION` runs exactly when it did). -/
def timerUpdate (interval : ℕ) (counter : ℤ) (delta : ℕ) : ℤ × ℕ × Bool :=
  let c := counter - delta
  if c ≤ 0 then
    ((rearmLoop interval (c + interval)).1, (rearmLoop interval (c + interval)).2, true)
  else (c, 0, false)

theorem rearmLoop_spec (interval : ℕ) (h : 1 ≤ interval) (c : ℤ)
    (hc : c ≤ interval) :
    (rearmLoop interval c).1 = c + (rearmLoop interval c).2 * interval ∧
      0 < (rearmLoop interval c).1 ∧ (rearmLoop interval c).1 ≤ interval := by
  by_cases h0 : c ≤ 0
  · have ih := rearmLoop_spec interval h (c + interval) (by omega)
    rw [rearmLoop, dif_neg (show ¬ interval = 0 by omega), dif_pos h0]
    refine ⟨?_, ih.2.1, ih.2.2⟩
    dsimp only
    rw [ih.1]
    push_cast
    ring
  · rw [rearmLoop, dif_neg (show ¬ interval = 0 by omega), dif_neg h0]
    exact ⟨by ring, by omega, hc⟩
termination_by (1 - c).toNat
decreasing_by omega

/-- First color-cycle wrap loop in `main.c`:
`while (rainbowIdx > MAX_COLORS) { rainbowIdx -= MAX_COLORS; }`. -/
def rainbowWrapDown (x : ℚ) : ℚ :=
  if _h : (MAX_COLORS : ℚ) < x then rainbowWrapDown (x - MAX_COLORS) else x
termination_by (⌈x⌉).toNat
decreasing_by
  have hc : ⌈x - ((MAX_COLORS : ℕ) : ℚ)⌉ = ⌈x⌉ - MAX_COLORS := by
    rw [show ((MAX_COLORS : ℕ) : ℚ) = ((MAX_COLORS : ℤ) : ℚ) by push_cast; ring,
      Int.ceil_sub_int]
  have h2 : ((MAX_COLORS : ℕ) : ℤ) ≤ ⌈x⌉ := by
    have h3 : ((MAX_COLORS : ℕ) : ℚ) ≤ x := le_of_lt _h
    exact_mod_cast le_trans h3 (Int.le_ceil x)
  have h4 : (MAX_COLORS : ℕ) = 1536 := rfl
  omega

/-- Second color-cycle wrap loop in `main.c`:
`while (rainbowIdx <= 0) { rainbowIdx += MAX_COLORS; }`. -/
def rainbowWrapUp (x : ℚ) : ℚ :=
  if _h : x ≤ 0 then rainbowWrapUp (x + MAX_COLORS) else x
termination_by (1 - ⌊x⌋).toNat
decreasing_by
  have hc : ⌊x + ((MAX_COLORS : ℕ) : ℚ)⌋ = ⌊x⌋ + MAX_COLORS := by
    rw [show ((MAX_COLORS : ℕ) : ℚ) = ((MAX_COLORS : ℤ) : ℚ) by push_cast; ring,
      Int.floor_add_int]
  have h2 : ⌊x⌋ ≤ 0 := by
    have := Int.floor_le x
    have hx : (⌊x⌋ : ℚ) ≤ 0 := le_trans this _h
    exact_mod_cast hx
  have h4 : (MAX_COLORS : ℕ) = 1536 := rfl
  omega

/-- The per-frame color-cycle update from `main.c`: advance the global
index by `delta / 1000 * particleColorSpeed`, then apply the two wrap
loops. -/
def rainbowAdvance (cfg : Config) (idx : ℚ) (delta : ℕ) : ℚ :=
  rainbowWrapUp (rainbowWrapDown
    (idx + (delta : ℚ) / 1000 * (cfg.particleColorSpeed : ℚ)))

theorem rainbowWrapDown_le (x : ℚ) : rainbowWrapDown x ≤ MAX_COLORS := by
  rw [rainbowWrapDown]
  split
  · exact rainbowWrapDown_le (x - MAX_COLORS)
  · exact le_of_not_lt (by assumption)
termination_by (⌈x⌉).toNat
decreasing_by
  have hc : ⌈x - ((MAX_COLORS : ℕ) : ℚ)⌉ = ⌈x⌉ - MAX_COLORS := by
    rw [show ((MAX_COLORS : ℕ) : ℚ) = ((MAX_COLORS : ℤ) : ℚ) by push_cast; ring,
      Int.ceil_sub_int]
  have h3 : ((MAX_COLORS : ℕ) : ℚ) ≤ x := le_of_lt (by assumption)
  have h2 : ((MAX_COLORS : ℕ) : ℤ) ≤ ⌈x⌉ := by
    exact_mod_cast le_trans h3 (Int.le_ceil x)
  have h4 : (MAX_COLORS : ℕ) = 1536 := rfl
  omega

theorem rainbowWrapDown_eq_self {x : ℚ} (h : ¬ (MAX_COLORS : ℚ) < x) :
    rainbowWrapDown x = x := by
  rw [rainbowWrapDown]
  simp [h]

theorem rainbowWrapUp_pos (x : ℚ) : 0 < rainbowWrapUp x := by
  rw [rainbowWrapUp]
  split
  · exact rainbowWrapUp_pos (x + MAX_COLORS)
  · exact lt_of_not_le (by assumption)
termination_by (1 - ⌊x⌋).toNat
decreasing_by
  have hc : ⌊x + ((MAX_COLORS : ℕ) : ℚ)⌋ = ⌊x⌋ + MAX_COLORS := by
    rw [show ((MAX_COLORS : ℕ) : ℚ) = ((MAX_COLORS : ℤ) : ℚ) by push_cast; ring,
      Int.floor_add_int]
  have h2 : ⌊x⌋ ≤ 0 := by
    have := Int.floor_le x
    have hx : (⌊x⌋ : ℚ) ≤ 0 := le_trans this (by assumption)
    exact_mod_cast hx
  have h4 : (MAX_COLORS : ℕ) = 1536 := rfl
  omega

theorem rainbowWrapUp_le {x : ℚ} (h : x ≤ MAX_COLORS) :
    rainbowWrapUp x ≤ MAX_COLORS := by
  rw [rainbowWrapUp]
  split
  · refine rainbowWrapUp_le ?_
    have h5 : (0 : ℚ) ≤ MAX_COLORS := by norm_num [MAX_COLORS]
    linarith [(by assumption : x ≤ (0 : ℚ))]
  · exact h
termination_by (1 - ⌊x⌋).toNat
decreasing_by
  have hc : ⌊x + ((MAX_COLORS : ℕ) : ℚ)⌋ = ⌊x⌋ + MAX_COLORS := by
    rw [show ((MAX_COLORS : ℕ) : ℚ) = ((MAX_COLORS : ℤ) : ℚ) by push_cast; ring,
      Int.floor_add_int]
  have h2 : ⌊x⌋ ≤ 0 := by
    have := Int.floor_le x
    have hx : (⌊x⌋ : ℚ) ≤ 0 := le_trans this (by assumption)
    exact_mod_cast hx
  have h4 : (MAX_COLORS : ℕ) = 1536 := rfl
  omega

theorem rainbowWrapUp_eq_self {x : ℚ} (h : ¬ x ≤ 0) : rainbowWrapUp x = x := by
  rw [rainbowWrapUp]
  simp [h]

/-- The C6 claim as stated: starting from any index value the global
color-cycle variable can hold (its initial value 0 or any previously
wrapped value, all of which lie in `[0, MAX_COLORS]`), the advanced
and wrapped index lies in `[0, MAX_COLORS)`. -/
def C6Statement : Prop :=
  ∀ (cfg : Config) (idx : ℚ) (delta : ℕ), 0 ≤ idx → idx ≤ MAX_COLORS →
    0 ≤ rainbowAdvance cfg idx delta ∧
      rainbowAdvance cfg idx delta < MAX_COLORS

/-- C6 fails on the code at the upper boundary: the wrap loops use the
strict comparison `rainbowIdx > MAX_COLORS`, so from the initial index
0 a frame of 30720 ms (at the default color speed 50) lands exactly on
`MAX_COLORS = 1536`, which the loops leave in place — outside
`[0, MAX_COLORS)`. -/
theorem C6_counterexample :
    rainbowAdvance defaultConfig 0 30720 = MAX_COLORS ∧ ¬ C6Statement := by
  have heval : rainbowAdvance defaultConfig 0 30720 = MAX_COLORS := by
    rw [rainbowAdvance]
    rw [show (0 : ℚ) + (30720 : ℕ) / 1000 * (defaultConfig.particleColorSpeed : ℚ)
        = (MAX_COLORS : ℚ) by norm_num [defaultConfig, MAX_COLORS]]
    rw [rainbowWrapDown_eq_self (by norm_num)]
    rw [rainbowWrapUp_eq_self (by norm_num [MAX_COLORS])]
  refine ⟨heval, fun hclaim => ?_⟩
  have := (hclaim defaultConfig 0 30720 le_rfl (by norm_num [MAX_COLORS])).2
  rw [heval] at this
  exact absurd this (lt_irrefl _)

/-- C6 amended: after the per-frame increment and the wrap loops, the
global color-cycle index always lies in the half-open interval
`(0, MAX_COLORS]` — strictly positive and at most the color-space
size, the upper boundary included (every consumer reduces the index
`mod MAX_COLORS` before use). -/
theorem C6_rainbow_wrapped_range (cfg : Config) (idx : ℚ) (delta : ℕ) :
    0 < rainbowAdvance cfg idx delta ∧
      rainbowAdvance cfg idx delta ≤ MAX_COLORS :=
  ⟨rainbowWrapUp_pos _, rainbowWrapUp_le (rainbowWrapDown_le _)⟩

/-- One canvas mutation issued to the rendering collaborator during a
frame: the background clear, a draw-color change (the RGB resolution
through `rainbow`/`interpolate2rgb` is out of scope; the op records
the color index and alpha), a particle's filled circle, or a
connector line. -/
inductive RenderOp
  | clear (alpha : ℕ)
  | color (idx : ℕ) (alpha : ℕ)
  | circle (cx cy : ℤ) (r : ℕ)
  | line (x1 y1 x2 y2 : ℤ)
deriving DecidableEq

/-- C `roundf`: round half away from zero. -/
def roundfQ (x : ℚ) : ℤ :=
  if x < 0 then -⌊-x + 1 / 2⌋ else ⌊x + 1 / 2⌋

/-- `setDrawColor` from `main.c`: reduce the index `mod MAX_COLORS`
and pick the alpha from fading mode
(`fadingMode ? alpha * 255 / 100 : 255`). -/
def setDrawColorOp (fading : Bool) (idx : ℕ) (alpha : ℕ) : RenderOp :=
  RenderOp.color (idx % MAX_COLORS) (if fading then alpha * 255 / 100 else 255)

/-- Screen x of a particle: `windowWidth / 2 + (int)roundf(p->x)`. -/
def drawX (cfg : Config) (x : ℚ) : ℤ :=
  (cfg.windowWidth : ℤ) / 2 + roundfQ x

/-- Screen y of a particle: `windowHeight / 2 + (int)roundf(p->y)`. -/
def drawY (cfg : Config) (y : ℚ) : ℤ :=
  (cfg.windowHeight : ℤ) / 2 + roundfQ y

/-- The innermost draw loop of `main.c`: connect `p` to every later
non-newborn particle of the same ring whose Euclidean distance is
below `p`'s line distance scaled by the runtime factor. -/
def lineOpsFor (cfg : Config) (t : TrigModel) (p : Particle) :
    List Particle → List RenderOp
  | [] => []
  | p2 :: rest =>
    (if p2.bornTimer > 0 then []
     else
       let yd := p2.y - p.y
       let xd := p2.x - p.x
       let d := t.sqrtq (xd * xd + yd * yd)
       let maxDistance := (p.lineDistance : ℚ) *
         ((cfg.particleLineDistanceFactor : ℚ) / 100)
       if d < maxDistance then
         [RenderOp.line (drawX cfg p.x) (drawY cfg p.y)
           (drawX cfg p2.x) (drawY cfg p2.y)]
       else []) ++
    lineOpsFor cfg t p rest

/-- The per-particle draw loop of `main.c` for the ring at age index
`i`: skip newborns, set the color in circular/individual modes, draw
the filled circle, and (lines enabled, ring not excluded by
`particleLineRingDisable`) add connector lines to later particles. -/
def drawParticleOps (cfg : Config) (t : TrigModel) (fading lines : Bool)
    (colorMode : ℕ) (rainbow : ℚ) (i : ℕ) : List Particle → List RenderOp
  | [] => []
  | p :: rest =>
    (if p.bornTimer > 0 then []
     else
       (if colorMode = 2 then
          [setDrawColorOp fading
            (((⌊p.position / 360 * (MAX_COLORS : ℚ)⌋).toNat + (⌊rainbow⌋).toNat) %
              MAX_COLORS) cfg.alphaElements]
        else if colorMode = 3 then
          [setDrawColorOp fading ((⌊(p.color : ℚ) + rainbow⌋).toNat) cfg.alphaElements]
        else []) ++
       [RenderOp.circle (drawX cfg p.x) (drawY cfg p.y) p.radius] ++
       (if lines = false then []
        else if cfg.particleLineRingDisable ≠ -1 ∧
            cfg.particleLineRingDisable < (i : ℤ) then []
        else lineOpsFor cfg t p rest)) ++
    drawParticleOps cfg t fading lines colorMode rainbow i rest

/-- The per-ring draw loop of `main.c`: set the color in ringed mode,
then draw the ring's particles. -/
def drawRingOps (cfg : Config) (t : TrigModel) (fading lines : Bool)
    (colorMode : ℕ) (rainbow : ℚ) : ℕ → List (List Particle) → List RenderOp
  | _, [] => []
  | i, ring :: rest =>
    (if colorMode = 1 then
       [setDrawColorOp fading
         ((⌊rainbow + ((i * MAX_COLORS / cfg.ringsMaximum : ℕ) : ℚ)⌋).toNat)
         cfg.alphaElements]
     else []) ++
    drawParticleOps cfg t fading lines colorMode rainbow i ring ++
    drawRingOps cfg t fading lines colorMode rainbow (i + 1) rest

/-- The particle/line drawing phase of a frame: the one up-front color
op in solid mode, then all rings from newest to oldest. -/
def drawFrameOps (cfg : Config) (t : TrigModel) (s : GameState) : List RenderOp :=
  (if s.colorMode = 0 then
     [setDrawColorOp s.fadingMode ((⌊s.rainbowIdx⌋).toNat) cfg.alphaElements]
   else []) ++
  drawRingOps cfg t s.fadingMode s.linesEnabled s.colorMode s.rainbowIdx 0 s.rings

/-- One full iteration of the `main.c` animation loop (after event
processing), given the frame's elapsed milliseconds `delta` and the
frame's `rand()` oracle: update the status-line timer, stop there when
paused; otherwise clear the canvas, run the ring-spawn timer (whose
expiry triggers the spawn action exactly once), advance the color
index, advance every particle of every ring, and emit the draw ops
unless blank mode is on.  Returns the new state and the canvas ops of
this frame. -/
def frameStep (cfg : Config) (t : TrigModel) (rnd : ℕ → RandDraws)
    (delta : ℕ) (s : GameState) : GameState × List RenderOp :=
  let st := timerUpdate cfg.timerPrintStatusLine s.printStatusLineCounter delta
  let s0 := { s with printStatusLineCounter := st.1 }
  if s0.paused then (s0, [])
  else
    let clearOp := RenderOp.clear (if s0.fadingMode then cfg.alphaBackground else 255)
    let rt := timerUpdate cfg.timerAddNewRing s0.addNewRingCounter delta
    let s1 := { s0 with addNewRingCounter := rt.1 }
    let s2 := if rt.2.2 then spawnAction cfg t rnd s1 else s1
    let s3 := { s2 with rainbowIdx := rainbowAdvance cfg s2.rainbowIdx delta }
    let s4 := { s3 with rings := s3.rings.map (List.map (advanceParticle cfg t delta)) }
    let ops := if s4.blankMode then [clearOp] else clearOp :: drawFrameOps cfg t s4
    (s4, ops)

theorem spawnAction_ringCount_of_lt (cfg : Config) (t : TrigModel)
    (rnd : ℕ → RandDraws) (s : GameState) (h : s.ringCount < cfg.ringsMaximum) :
    (spawnAction cfg t rnd s).ringCount = s.ringCount + 1 := by
  unfold spawnAction
  dsimp only
  rw [pruneExcess_eq_self _ _ (by simp [addRing]; omega)]
  simp [populateRings_ringCount, addRing]

/-- C5: the countdown timers fire their action exactly once per frame
on expiry (the expiry flag is raised once and the action sits outside
the catch-up loop); the counter is re-armed by adding the interval
back once per expired multiple (ending in `(0, interval]`, the unique
such re-arming); and the count of extra expired multiples is returned
(and reported) rather than replayed — in particular a frame in which
the ring-spawn timer expires adds exactly one ring, however late the
frame is. -/
theorem C5_timer_catch_up :
    (∀ (interval : ℕ) (counter : ℤ) (delta : ℕ), 1 ≤ interval →
      counter - (delta : ℤ) ≤ 0 →
      (timerUpdate interval counter delta).2.2 = true ∧
        (timerUpdate interval counter delta).1 =
          counter - (delta : ℤ) +
            (1 + ((timerUpdate interval counter delta).2.1 : ℤ)) * interval ∧
        0 < (timerUpdate interval counter delta).1 ∧
        (timerUpdate interval counter delta).1 ≤ interval) ∧
    (∀ (cfg : Config) (t : TrigModel) (rnd : ℕ → RandDraws) (delta : ℕ)
      (s : GameState), s.paused = false →
      s.addNewRingCounter - (delta : ℤ) ≤ 0 →
      s.ringCount < cfg.ringsMaximum →
      (frameStep cfg t rnd delta s).1.ringCount = s.ringCount + 1) := by
  constructor
  · intro interval counter delta hi hc
    unfold timerUpdate
    dsimp only
    rw [if_pos hc]
    obtain ⟨e1, e2, e3⟩ := rearmLoop_spec interval hi (counter - delta + interval)
      (by omega)
    refine ⟨rfl, ?_, e2, e3⟩
    dsimp only
    rw [e1]
    ring
  · intro cfg t rnd delta s hp hc hring
    unfold frameStep
    dsimp only
    rw [if_neg (by simp [hp])]
    dsimp only
    rw [show (timerUpdate cfg.timerAddNewRing s.addNewRingCounter delta).2.2 = true
      from by unfold timerUpdate; dsimp only; rw [if_pos hc]]
    simp only [if_pos]
    exact spawnAction_ringCount_of_lt cfg t rnd _ hring

/-- Closed instance of C5: a frame 2200 ms late on a 1000 ms timer
fires once, reports 2 missed firings, re-arms the counter to 800, and
(from the start state) adds exactly one ring. -/
theorem C5_timer_catch_up_witness :
    ((1 : ℕ) ≤ 1000 ∧ (800 : ℤ) - (3000 : ℕ) ≤ 0 ∧
      ((timerUpdate 1000 800 3000).2.2 = true ∧
        (timerUpdate 1000 800 3000).1 =
          (800 : ℤ) - (3000 : ℕ) +
            (1 + ((timerUpdate 1000 800 3000).2.1 : ℤ)) * 1000 ∧
        0 < (timerUpdate 1000 800 3000).1 ∧
        (timerUpdate 1000 800 3000).1 ≤ 1000)) ∧
    (initialState.paused = false ∧
      initialState.addNewRingCounter - ((1 : ℕ) : ℤ) ≤ 0 ∧
      initialState.ringCount < defaultConfig.ringsMaximum ∧
      (frameStep defaultConfig trivialTrig (fun _ => zeroDraws) 1
        initialState).1.ringCount = initialState.ringCount + 1) :=
  ⟨⟨by norm_num, by norm_num,
      C5_timer_catch_up.1 1000 800 3000 (by norm_num) (by norm_num)⟩,
    ⟨rfl, by norm_num [initialState], by decide,
      C5_timer_catch_up.2 defaultConfig trivialTrig (fun _ => zeroDraws) 1
        initialState rfl (by norm_num [initialState]) (by decide)⟩⟩

theorem addRing_blank (s : GameState) (b : Bool) :
    addRing { s with blankMode := b } = { addRing s with blankMode := b } := rfl

theorem recycleLastRing_blank (s : GameState) (b : Bool) :
    recycleLastRing { s with blankMode := b } =
      { recycleLastRing s with blankMode := b } := by
  obtain ⟨rg, rc, pc, rp, fp, fm, bm, le, pa, cm, ri, an, ps⟩ := s
  unfold recycleLastRing
  dsimp only
  rcases h : splitLastRing rg with ⟨r', tl⟩
  cases tl <;> rfl

theorem pruneOldest_blank (s : GameState) (b : Bool) :
    pruneOldest { s with blankMode := b } = { pruneOldest s with blankMode := b } := by
  unfold pruneOldest
  rw [recycleLastRing_blank]

theorem pruneExcess_blank (cfg : Config) (s : GameState) (b : Bool) :
    pruneExcess cfg { s with blankMode := b } =
      { pruneExcess cfg s with blankMode := b } := by
  by_cases h : cfg.ringsMaximum < s.ringCount
  · have ih := pruneExcess_blank cfg (pruneOldest s) b
    rw [pruneExcess, dif_pos (show cfg.ringsMaximum <
      ({ s with blankMode := b } : GameState).ringCount from h)]
    rw [pruneOldest_blank, ih]
    conv_rhs => rw [pruneExcess, dif_pos h]
  · rw [pruneExcess, dif_neg (show ¬ cfg.ringsMaximum <
      ({ s with blankMode := b } : GameState).ringCount from h)]
    conv_rhs => rw [pruneExcess, dif_neg h]
termination_by s.ringCount
decreasing_by rw [pruneOldest_ringCount]; omega

theorem makeOrReclaim_blank (cfg : Config) (t : TrigModel) (d : RandDraws)
    (s : GameState) (b : Bool) :
    makeOrReclaim cfg t d { s with blankMode := b } =
      ({ (makeOrReclaim cfg t d s).1 with blankMode := b },
        (makeOrReclaim cfg t d s).2) := by
  obtain ⟨rg, rc, pc, rp, fp, fm, bm, le, pa, cm, ri, an, ps⟩ := s
  unfold makeOrReclaim
  dsimp only
  cases fp <;> rfl

theorem populateRing_blank (cfg : Config) (t : TrigModel) (rnd : ℕ → RandDraws)
    (b : Bool) : ∀ (num k : ℕ) (ring : List Particle) (s : GameState),
    populateRing cfg t rnd k num ring { s with blankMode := b } =
      ((populateRing cfg t rnd k num ring s).1,
        { (populateRing cfg t rnd k num ring s).2.1 with blankMode := b },
        (populateRing cfg t rnd k num ring s).2.2) := by
  intro num
  induction num with
  | zero => intro k ring s; rfl
  | succ n ih =>
    intro k ring s
    simp only [populateRing]
    rw [makeOrReclaim_blank]
    rw [ih (k + 1) _ (makeOrReclaim cfg t (rnd k) s).1]

theorem populateRings_blank (cfg : Config) (t : TrigModel) (rnd : ℕ → RandDraws)
    (b : Bool) : ∀ (rs : List (List Particle)) (k i : ℕ) (s : GameState),
    populateRings cfg t rnd k i rs { s with blankMode := b } =
      ((populateRings cfg t rnd k i rs s).1,
        { (populateRings cfg t rnd k i rs s).2.1 with blankMode := b },
        (populateRings cfg t rnd k i rs s).2.2) := by
  intro rs
  induction rs with
  | nil => intro k i s; rfl
  | cons ring rest ih =>
    intro k i s
    simp only [populateRings]
    rw [populateRing_blank]
    rw [ih _ _ (populateRing cfg t rnd k (i / 4 + 4) ring s).2.1]

theorem spawnAction_blank (cfg : Config) (t : TrigModel) (rnd : ℕ → RandDraws)
    (s : GameState) (b : Bool) :
    spawnAction cfg t rnd { s with blankMode := b } =
      { spawnAction cfg t rnd s with blankMode := b } := by
  unfold spawnAction
  dsimp only
  rw [addRing_blank, pruneExcess_blank]
  rw [show ({ pruneExcess cfg (addRing s) with blankMode := b } : GameState).rings =
    (pruneExcess cfg (addRing s)).rings from rfl]
  rw [populateRings_blank]

/-- `spawnAction` never changes blank mode (instance of the commuting
lemma at `b = s.blankMode`, using structure eta). -/
theorem spawnAction_blankMode (cfg : Config) (t : TrigModel) (rnd : ℕ → RandDraws)
    (s : GameState) : (spawnAction cfg t rnd s).blankMode = s.blankMode := by
  have h := spawnAction_blank cfg t rnd s s.blankMode
  rw [show ({ s with blankMode := s.blankMode } : GameState) = s from rfl] at h
  rw [h]

theorem frameStep_state_blank (cfg : Config) (t : TrigModel) (rnd : ℕ → RandDraws)
    (delta : ℕ) (s : GameState) (b : Bool) :
    (frameStep cfg t rnd delta { s with blankMode := b }).1 =
      { (frameStep cfg t rnd delta s).1 with blankMode := b } := by
  unfold frameStep
  dsimp only
  cases hp : s.paused with
  | true => simp [hp]
  | false =>
    simp only [hp, Bool.false_eq_true, if_false]
    cases hb : (timerUpdate cfg.timerAddNewRing s.addNewRingCounter delta).2.2 with
    | true =>
      simp only [hb, if_true]
      rw [show ({ s with
          paused := false
          blankMode := b
          printStatusLineCounter :=
            (timerUpdate cfg.timerPrintStatusLine s.printStatusLineCounter delta).1
          addNewRingCounter :=
            (timerUpdate cfg.timerAddNewRing s.addNewRingCounter delta).1 } :
          GameState) =
        { ({ s with
            paused := false
            printStatusLineCounter :=
              (timerUpdate cfg.timerPrintStatusLine s.printStatusLineCounter delta).1
            addNewRingCounter :=
              (timerUpdate cfg.timerAddNewRing s.addNewRingCounter delta).1 } :
            GameState) with blankMode := b } from rfl]
      rw [spawnAction_blank]
    | false => simp [hb]

theorem setBlankMode_self (u : GameState) (h : u.blankMode = true) :
    ({ u with blankMode := true } : GameState) = u := by
  rw [← h]

/-- `frameStep` never changes blank mode. -/
theorem frameStep_blankMode (cfg : Config) (t : TrigModel) (rnd : ℕ → RandDraws)
    (delta : ℕ) (s : GameState) :
    (frameStep cfg t rnd delta s).1.blankMode = s.blankMode := by
  have h := frameStep_state_blank cfg t rnd delta s s.blankMode
  rw [show ({ s with blankMode := s.blankMode } : GameState) = s from rfl] at h
  rw [h]

/-- The C4 claim as stated: a blank-mode (unpaused) frame emits no
render ops at all, while the state advances exactly as the same frame
would with blank mode off. -/
def C4Statement : Prop :=
  ∀ (cfg : Config) (t : TrigModel) (rnd : ℕ → RandDraws) (delta : ℕ)
    (s : GameState), s.blankMode = true → s.paused = false →
    (frameStep cfg t rnd delta s).2 = [] ∧
    (frameStep cfg t rnd delta s).1 =
      { (frameStep cfg t rnd delta { s with blankMode := false }).1 with
        blankMode := true }

/-- The initial state with blank mode toggled on. -/
def blankInitState : GameState := { initialState with blankMode := true }

/-- A blank-mode unpaused frame's render ops are exactly the
background clear (which runs before the blank-mode check in
`main.c`). -/
theorem frameOps_blank (cfg : Config) (t : TrigModel) (rnd : ℕ → RandDraws)
    (delta : ℕ) (s : GameState) (hb : s.blankMode = true) (hp : s.paused = false) :
    (frameStep cfg t rnd delta s).2 =
      [RenderOp.clear (if s.fadingMode then cfg.alphaBackground else 255)] := by
  unfold frameStep
  dsimp only
  rw [if_neg (by simp [hp])]
  cases hfire : (timerUpdate cfg.timerAddNewRing s.addNewRingCounter delta).2.2 with
  | true => simp [spawnAction_blankMode, hb]
  | false => simp [hb]

/-- C4 fails on the code: `clearScreen()` runs before the blank-mode
check, so even a blank frame emits the background clear (mutating the
canvas); from the blank start state a 1 ms frame emits exactly the
fading clear op. -/
theorem C4_counterexample : ¬ C4Statement := by
  intro h
  have hops := (h defaultConfig trivialTrig (fun _ => zeroDraws) 1
    blankInitState rfl rfl).1
  have heval := frameOps_blank defaultConfig trivialTrig (fun _ => zeroDraws) 1
    blankInitState rfl rfl
  rw [heval] at hops
  exact absurd hops (by simp)

/-- C4 amended: a blank-mode (unpaused) frame emits exactly one render
op — the background clear that runs before the blank-mode check (with
the fade-dependent alpha) — and no particle or line draw ops; the
physics state advances exactly as the same frame would with blank mode
off. -/
theorem C4_blank_frame (cfg : Config) (t : TrigModel) (rnd : ℕ → RandDraws)
    (delta : ℕ) (s : GameState) (hb : s.blankMode = true) (hp : s.paused = false) :
    (frameStep cfg t rnd delta s).2 =
      [RenderOp.clear (if s.fadingMode then cfg.alphaBackground else 255)] ∧
    (frameStep cfg t rnd delta s).1 =
      { (frameStep cfg t rnd delta { s with blankMode := false }).1 with
        blankMode := true } := by
  refine ⟨frameOps_blank cfg t rnd delta s hb hp, ?_⟩
  · have h := frameStep_state_blank cfg t rnd delta s false
    rw [h]
    rw [show ({ ({ (frameStep cfg t rnd delta s).1 with blankMode := false } :
      GameState) with blankMode := true } : GameState) =
      { (frameStep cfg t rnd delta s).1 with blankMode := true } from rfl]
    exact (setBlankMode_self _ (by rw [frameStep_blankMode]; exact hb)).symm

/-- Closed instance of the amended C4 theorem: from the blank start
state a 1 ms frame emits only the fading background clear, and its
state equals the non-blank frame's state with blank mode set back. -/
theorem C4_blank_frame_witness :
    blankInitState.blankMode = true ∧ blankInitState.paused = false ∧
      ((frameStep defaultConfig trivialTrig (fun _ => zeroDraws) 1
          blankInitState).2 =
        [RenderOp.clear (if blankInitState.fadingMode then
          defaultConfig.alphaBackground else 255)] ∧
      (frameStep defaultConfig trivialTrig (fun _ => zeroDraws) 1
          blankInitState).1 =
        { (frameStep defaultConfig trivialTrig (fun _ => zeroDraws) 1
            { blankInitState with blankMode := false }).1 with
          blankMode := true }) :=
  ⟨rfl, rfl, C4_blank_frame defaultConfig trivialTrig (fun _ => zeroDraws) 1
    blankInitState rfl rfl⟩

theorem spawnAction_init_particleCount (rnd : ℕ → RandDraws) :
    (spawnAction defaultConfig trivialTrig rnd initialState).particleCount = 4 := by
  unfold spawnAction
  dsimp only
  rw [pruneExcess_eq_self _ _ (by decide)]
  rw [show (addRing initialState).rings = [[]] from rfl]
  simp only [populateRings, Nat.zero_div, Nat.zero_add]
  rw [populateRing_state_free_nil defaultConfig trivialTrig rnd 4 0 []
    (addRing initialState) rfl]
  rfl

/-- C9: on a ring-spawn timer expiry, every ring at age index `j`
(0 = the newest, just-added head ring) gains exactly `j / 4 + 4`
newly randomized particles; and starting from zero rings, after one
spawn interval the ring count is 1 and the particle count equals the
base population 4. -/
theorem C9_population_policy :
    (∀ (cfg : Config) (t : TrigModel) (rnd : ℕ → RandDraws) (s : GameState)
      (j : ℕ),
      ((spawnAction cfg t rnd s).rings[j]?.map List.length) =
        ((pruneExcess cfg (addRing s)).rings[j]?.map
          (fun r => r.length + (j / 4 + 4)))) ∧
    ((spawnAction defaultConfig trivialTrig (fun _ => zeroDraws)
        initialState).ringCount = 1 ∧
      ((spawnAction defaultConfig trivialTrig (fun _ => zeroDraws)
        initialState).rings.map List.length) = [4] ∧
      (spawnAction defaultConfig trivialTrig (fun _ => zeroDraws)
        initialState).particleCount = 4) := by
  refine ⟨?_, spawnAction_init_ringCount _, spawnAction_init_rings _,
    spawnAction_init_particleCount _⟩
  intro cfg t rnd s j
  unfold spawnAction
  dsimp only
  rw [populateRings_ring_lengths]
  rw [Nat.zero_add]

end Undercurrents
